import Mathlib

/-!
Verification of the kraph knowledge-graph engine (src/src-tauri/src).

This file gives a shallow embedding of the graph-consistency and retrieval
core: the relational store operations of `database.rs` (upsert, alias
resolution, merge, relation upsert, memory deletion, cleanup), the
retrieval candidate gathering and budget-constrained selection of
`lib.rs`, and the truncated-JSON repair path of `model_client.rs`.
SQLite tables are embedded as Lean lists, SQL statements as list
transformations that mirror the per-row semantics of each statement
(including `UPDATE OR IGNORE` conflict skipping, `ON CONFLICT` clauses,
cascade deletes, and immediate foreign-key enforcement where the
connection has `PRAGMA foreign_keys = ON`).  serde_json's strict parser
is embedded as a recursive-descent validator of the JSON grammar.
-/

namespace Kraph

/-! ## String helpers

SQLite's `LIKE` operator is case-insensitive for ASCII letters and the
code always wraps the needle as `%needle%`; we model this as an
ASCII-case-folded substring test (wildcard metacharacters inside the
needle are not modelled; all names used in theorems are literal). -/

def asciiLowerChar (c : Char) : Char :=
  if 'A' ≤ c ∧ c ≤ 'Z' then Char.ofNat (c.toNat + 32) else c

def lowerList (cs : List Char) : List Char :=
  cs.map asciiLowerChar

def isPrefixList : List Char → List Char → Bool
  | [], _ => true
  | _ :: _, [] => false
  | a :: as, b :: bs => a == b && isPrefixList as bs

def containsSubList (hay needle : List Char) : Bool :=
  if isPrefixList needle hay then true
  else
    match hay with
    | [] => false
    | _ :: rest => containsSubList rest needle

/-- Models `col LIKE '%pat%'` with SQLite's default ASCII-case-insensitive collation. -/
def likeMatch (col pat : String) : Bool :=
  containsSubList (lowerList col.toList) (lowerList pat.toList)

/-- Plain (case-sensitive) substring test, used to state what an attribute
blob does or does not contain. -/
def strContainsS (hay needle : String) : Bool :=
  containsSubList hay.toList needle.toList

/-! ## A strict JSON validator

Embeds the grammar accepted by `serde_json::from_str` (RFC 8259): a
repaired response string is accepted by serde only if it is
syntactically valid JSON, so rejection by this validator implies the
`serde_json` parse in `parse_extracted_data` fails.  Recursion is
fuel-indexed; `jsonValid` supplies ample fuel for the concrete strings
it is evaluated on. -/

def isWsChar (c : Char) : Bool :=
  c == ' ' || c == '\t' || c == '\n' || c == '\r'

def skipWs (cs : List Char) : List Char :=
  cs.dropWhile isWsChar

def isHexDigitChar (c : Char) : Bool :=
  c.isDigit || (97 ≤ c.toNat && c.toNat ≤ 102) || (65 ≤ c.toNat && c.toNat ≤ 70)

def isSimpleEsc (c : Char) : Bool :=
  c == '"' || c == '\\' || c == '/' || c == 'b' || c == 'f' ||
  c == 'n' || c == 'r' || c == 't'

/-- Consume the remainder of a JSON string literal (after the opening
quote); returns the input remaining after the closing quote. -/
def pStrRest : Nat → List Char → Option (List Char)
  | 0, _ => none
  | _ + 1, [] => none
  | f + 1, c :: rest =>
    if c == '"' then some rest
    else if c == '\\' then
      match rest with
      | [] => none
      | e :: r2 =>
        if isSimpleEsc e then pStrRest f r2
        else if e == 'u' then
          match r2 with
          | h1 :: h2 :: h3 :: h4 :: r3 =>
            if isHexDigitChar h1 && isHexDigitChar h2 &&
               isHexDigitChar h3 && isHexDigitChar h4 then pStrRest f r3
            else none
          | _ => none
        else none
    else if c.toNat < 32 then none
    else pStrRest f rest

/-- One-or-more digits, then any further digits. -/
def pDigits1 : List Char → Option (List Char)
  | c :: rest => if c.isDigit then some (rest.dropWhile Char.isDigit) else none
  | [] => none

def pExpPart (cs : List Char) : Option (List Char) :=
  match cs with
  | e :: r =>
    if e == 'e' || e == 'E' then
      match r with
      | '+' :: r2 => pDigits1 r2
      | '-' :: r2 => pDigits1 r2
      | _ => pDigits1 r
    else some cs
  | [] => some cs

def pFracPart (cs : List Char) : Option (List Char) :=
  match cs with
  | '.' :: r =>
    match pDigits1 r with
    | some r2 => pExpPart r2
    | none => none
  | _ => pExpPart cs

/-- A JSON number starting at the head of the input. -/
def pNumRest (cs : List Char) : Option (List Char) :=
  let cs1 := match cs with | '-' :: r => r | _ => cs
  match cs1 with
  | '0' :: r => pFracPart r
  | c :: r => if c.isDigit then pFracPart (r.dropWhile Char.isDigit) else none
  | [] => none

def dropExact : List Char → List Char → Option (List Char)
  | [], cs => some cs
  | l :: ls, c :: cs => if c == l then dropExact ls cs else none
  | _ :: _, [] => none

mutual

/-- A JSON value starting at the head of the input. -/
def pVal : Nat → List Char → Option (List Char)
  | 0, _ => none
  | _ + 1, [] => none
  | f + 1, c :: rest =>
    if c == '"' then pStrRest (rest.length + 1) rest
    else if c == '[' then
      let r1 := skipWs rest
      match r1 with
      | ']' :: r2 => some r2
      | _ =>
        match pVal f r1 with
        | none => none
        | some r2 => pArrTail f r2
    else if c == '\x7b' then
      let r1 := skipWs rest
      match r1 with
      | '\x7d' :: r2 => some r2
      | _ => pMember f r1
    else if c == 't' then dropExact ['r', 'u', 'e'] rest
    else if c == 'f' then dropExact ['a', 'l', 's', 'e'] rest
    else if c == 'n' then dropExact ['u', 'l', 'l'] rest
    else if c == '-' || c.isDigit then pNumRest (c :: rest)
    else none

/-- After a value inside an array: a comma and another value, or `]`. -/
def pArrTail : Nat → List Char → Option (List Char)
  | 0, _ => none
  | f + 1, cs =>
    match skipWs cs with
    | ']' :: r2 => some r2
    | ',' :: r2 =>
      match pVal f (skipWs r2) with
      | none => none
      | some r3 => pArrTail f r3
    | _ => none

/-- An object member: a string key, a colon, a value, then the object tail. -/
def pMember : Nat → List Char → Option (List Char)
  | 0, _ => none
  | f + 1, cs =>
    match cs with
    | '"' :: rest =>
      match pStrRest (rest.length + 1) rest with
      | none => none
      | some r1 =>
        match skipWs r1 with
        | ':' :: r2 =>
          match pVal f (skipWs r2) with
          | none => none
          | some r3 => pObjTail f r3
        | _ => none
    | _ => none

/-- After a member inside an object: a comma and another member, or the
closing brace. -/
def pObjTail : Nat → List Char → Option (List Char)
  | 0, _ => none
  | f + 1, cs =>
    match skipWs cs with
    | '\x7d' :: r2 => some r2
    | ',' :: r2 => pMember f (skipWs r2)
    | _ => none

end

/-- Returns `true` iff the whole string is a syntactically valid JSON document. -/
def jsonValid (s : String) : Bool :=
  match pVal (s.length + 1) (skipWs s.toList) with
  | some rest => skipWs rest == []
  | none => false

/-! ## `repair_truncated_json` (model_client.rs)

The walk tracks square/curly depth, string-literal and escape state, and
the last position where both depths were zero, exactly as the Rust loop
does; the positions are counted in characters (the characters that set
`last_safe_end` are ASCII, so the `0 < last_safe_end < s.len()` branch
test has the same truth value as the byte-indexed original). -/

structure WalkSt where
  sq : Int
  cu : Int
  inStr : Bool
  esc : Bool
  lastSafe : Nat
deriving Repr, DecidableEq

def repairWalk : List Char → Nat → WalkSt → WalkSt
  | [], _, st => st
  | c :: rest, i, st =>
    if st.esc then repairWalk rest (i + 1) { st with esc := false }
    else if st.inStr then
      if c == '\\' then repairWalk rest (i + 1) { st with esc := true }
      else if c == '"' then repairWalk rest (i + 1) { st with inStr := false }
      else repairWalk rest (i + 1) st
    else if c == '"' then repairWalk rest (i + 1) { st with inStr := true }
    else if c == '[' then repairWalk rest (i + 1) { st with sq := st.sq + 1 }
    else if c == ']' then
      let sq := st.sq - 1
      let ls := if sq == 0 && st.cu == 0 then i + 1 else st.lastSafe
      repairWalk rest (i + 1) { st with sq := sq, lastSafe := ls }
    else if c == '\x7b' then repairWalk rest (i + 1) { st with cu := st.cu + 1 }
    else if c == '\x7d' then
      let cu := st.cu - 1
      let ls := if st.sq == 0 && cu == 0 then i + 1 else st.lastSafe
      repairWalk rest (i + 1) { st with cu := cu, lastSafe := ls }
    else repairWalk rest (i + 1) st

def initialWalkSt : WalkSt := ⟨0, 0, false, false, 0⟩

/-- The patched string: close an unterminated string literal, then append
`]` for every unclosed `[` followed by `\x7d` for every unclosed `\x7b`
(the Rust `for` loops run in that fixed order). -/
def repairOut (s : String) (w : WalkSt) : String :=
  String.mk (s.toList ++ (if w.inStr then ['"'] else []) ++
    List.replicate w.sq.toNat ']' ++ List.replicate w.cu.toNat '\x7d')

/-- The final `Some`/`None` decision of `repair_truncated_json`. -/
def repairFinish (s : String) (w : WalkSt) : Option String :=
  if 0 < w.lastSafe ∧ w.lastSafe < s.length then some (repairOut s w)
  else if w.sq == 0 && w.cu == 0 then none
  else some (repairOut s w)

/-- Embeds `repair_truncated_json` from model_client.rs. -/
def repair_truncated_json (s : String) : Option String :=
  repairFinish s (repairWalk s.toList 0 initialWalkSt)

/-- The walk ends outside any string literal with both depths zero. -/
def balancedWalk (s : String) : Bool :=
  let w := repairWalk s.toList 0 initialWalkSt
  w.sq == 0 && w.cu == 0 && !w.inStr

/-- Models `parse_extracted_data`'s control flow with the serde parse abstracted
as a predicate `strict`: try the strict parse, on failure repair once and
re-try; the result is the string that was successfully parsed (or `none`
for the error path). -/
def parsePipeline (strict : String → Bool) (s : String) : Option String :=
  if strict s then some s
  else
    match repair_truncated_json s with
    | some r => if strict r then some r else none
    | none => none

/-! ## The relational store (database.rs)

Tables are lists of rows; `AUTOINCREMENT` ids are threaded through
`nextEntityId`.  Timestamp columns are omitted except `created_at` on
memories, which retrieval orders by.  Attribute blobs stay opaque
`Option String` JSON text, as in the schema. -/

structure Entity where
  id : Nat
  etype : String
  name : String
  attrs : Option String
deriving Repr, DecidableEq

structure AliasRow where
  entityId : Nat
  aliasName : String
deriving Repr, DecidableEq

structure Rel where
  fromId : Nat
  toId : Nat
  rtype : String
  strength : Nat
deriving Repr, DecidableEq

structure Mem where
  id : Nat
  content : String
  createdAt : Nat
deriving Repr, DecidableEq

/-- Links are `(memory_id, entity_id)` pairs (composite primary key). -/
structure Db where
  entities : List Entity
  entity_aliases : List AliasRow
  relations : List Rel
  memories : List Mem
  memory_entities : List (Nat × Nat)
  nextEntityId : Nat
deriving Repr, DecidableEq

/-- Models `COALESCE(excluded.attributes, attributes)`: the new blob wins when it
is non-null, otherwise the existing blob is kept — the blob is *not*
merged field by field. -/
def coalesceAttrs (newA oldA : Option String) : Option String :=
  match newA with
  | some a => some a
  | none => oldA

/-- Embeds `upsert_entity`: `INSERT ... ON CONFLICT(type, name) DO UPDATE SET
attributes = COALESCE(excluded.attributes, attributes)`, then
`SELECT id WHERE type = ? AND name = ?`; returns the new state and the
id. -/
def upsert_entity (st : Db) (t n : String) (a : Option String) : Db × Nat :=
  match st.entities.find? (fun e => e.etype == t && e.name == n) with
  | some e =>
    ({ st with entities := st.entities.map (fun e' =>
        if e'.etype == t && e'.name == n then { e' with attrs := coalesceAttrs a e'.attrs }
        else e') }, e.id)
  | none =>
    ({ st with
        entities := st.entities ++ [⟨st.nextEntityId, t, n, a⟩],
        nextEntityId := st.nextEntityId + 1 }, st.nextEntityId)

/-- Embeds `find_entity_id_by_name_or_alias`: exact `entities.name` match first
(`LIMIT 1`: first row), then exact `entity_aliases.alias` match. -/
def find_entity_id_by_name_or_alias (st : Db) (n : String) : Option Nat :=
  match st.entities.find? (fun e => e.name == n) with
  | some e => some e.id
  | none => (st.entity_aliases.find? (fun a => a.aliasName == n)).map (·.entityId)

/-- Embeds `get_entity_by_name`: fuzzy lookup — `name LIKE '%n%' LIMIT 1`, then
`alias LIKE '%n%' LIMIT 1` followed by `get_entity_by_id` (whose
missing-id error case, unreachable in the claims below, is collapsed
into `none`). -/
def get_entity_by_name (st : Db) (n : String) : Option Entity :=
  match st.entities.find? (fun e => likeMatch e.name n) with
  | some e => some e
  | none =>
    match st.entity_aliases.find? (fun a => likeMatch a.aliasName n) with
    | some a => st.entities.find? (fun e => e.id == a.entityId)
    | none => none

/-- Embeds `add_entity_alias`: `INSERT OR IGNORE` against `UNIQUE(alias)`
(callers always pass an existing `entity_id`, so the foreign key, which
`OR IGNORE` does not cover, never fires in the claims below). -/
def add_entity_alias (st : Db) (eid : Nat) (al : String) : Db :=
  if st.entity_aliases.any (fun a => a.aliasName == al) then st
  else { st with entity_aliases := st.entity_aliases ++ [⟨eid, al⟩] }

/-- Embeds `upsert_relation`: `INSERT ... ON CONFLICT(from, to, type) DO UPDATE
SET strength = strength + 1`; a fresh insert checks the foreign keys on
both endpoints (`none` models the constraint error). -/
def upsert_relation (st : Db) (f t : Nat) (rt : String) : Option Db :=
  if st.relations.any (fun r => r.fromId == f && r.toId == t && r.rtype == rt) then
    some { st with relations := st.relations.map (fun r =>
      if r.fromId == f && r.toId == t && r.rtype == rt then
        { r with strength := r.strength + 1 }
      else r) }
  else if st.entities.any (fun e => e.id == f) && st.entities.any (fun e => e.id == t) then
    some { st with relations := st.relations ++ [⟨f, t, rt, 1⟩] }
  else none

def insertByCreatedDesc (m : Mem) : List Mem → List Mem
  | [] => [m]
  | x :: xs =>
    if x.createdAt < m.createdAt then m :: x :: xs
    else x :: insertByCreatedDesc m xs

/-- Stable sort by `created_at` descending (ties keep table order). -/
def sortByCreatedDesc : List Mem → List Mem
  | [] => []
  | x :: xs => insertByCreatedDesc x (sortByCreatedDesc xs)

/-- Embeds `get_memories_for_entity`: memories joined through `memory_entities`,
`ORDER BY created_at DESC`. -/
def get_memories_for_entity (st : Db) (eid : Nat) : List Mem :=
  sortByCreatedDesc (st.memories.filter (fun m =>
    st.memory_entities.any (fun l => l.1 == m.id && l.2 == eid)))

/-! ### `merge_entities`

Each `UPDATE OR IGNORE` is a row map that skips (leaves unchanged) any
row whose updated image would violate the table's uniqueness
constraint.  Rows already updated by the same statement cannot collide
with rows still pending (both sides would need the same pre-statement
key), so checking conflicts against the statement's start state is
exact. -/

/-- Step 1, per row: `UPDATE OR IGNORE entity_aliases SET entity_id =
tgt WHERE entity_id = src` (alias strings are unchanged, so the
`UNIQUE(alias)` constraint can never fire and every row moves). -/
def mergeAliasRow (src tgt : Nat) (a : AliasRow) : AliasRow :=
  if a.entityId == src then { a with entityId := tgt } else a

def mergeAliasesStep (src tgt : Nat) (als : List AliasRow) : List AliasRow :=
  als.map (mergeAliasRow src tgt)

/-- Step 2, per row: `UPDATE OR IGNORE memory_entities SET entity_id =
tgt WHERE entity_id = src`; a row is skipped when `(memory_id, tgt)`
already exists. -/
def mergeLinkRow (src tgt : Nat) (links : List (Nat × Nat)) (l : Nat × Nat) : Nat × Nat :=
  if l.2 == src then
    (if links.any (fun l' => l'.1 == l.1 && l'.2 == tgt) then l else (l.1, tgt))
  else l

def mergeLinksStep (src tgt : Nat) (links : List (Nat × Nat)) : List (Nat × Nat) :=
  links.map (mergeLinkRow src tgt links)

/-- Step 3, per row: `UPDATE OR IGNORE relations SET from_entity_id =
tgt WHERE from_entity_id = src`; a row is skipped when the updated
triple already exists. -/
def mergeFromRow (src tgt : Nat) (rels : List Rel) (r : Rel) : Rel :=
  if r.fromId == src then
    (if rels.any (fun r' =>
         r'.fromId == tgt && r'.toId == r.toId && r'.rtype == r.rtype) then r
     else { r with fromId := tgt })
  else r

def mergeFromStep (src tgt : Nat) (rels : List Rel) : List Rel :=
  rels.map (mergeFromRow src tgt rels)

/-- Step 4, per row: the same for `to_entity_id`, against the state left
by step 3. -/
def mergeToRow (src tgt : Nat) (rels : List Rel) (r : Rel) : Rel :=
  if r.toId == src then
    (if rels.any (fun r' =>
         r'.fromId == r.fromId && r'.toId == tgt && r'.rtype == r.rtype) then r
     else { r with toId := tgt })
  else r

def mergeToStep (src tgt : Nat) (rels : List Rel) : List Rel :=
  rels.map (mergeToRow src tgt rels)

/-- Step 6: `INSERT OR IGNORE` of the source's former name as an alias
of the target. -/
def mergeAliasInsert (tgt : Nat) (name : String) (als : List AliasRow) : List AliasRow :=
  if als.any (fun a => a.aliasName == name) then als else als ++ [⟨tgt, name⟩]

/-- Embeds `merge_entities`: steps 1–4 are the `UPDATE OR IGNORE` reassignments
above; step 5 deletes every relation still referencing `src`; step 6
registers the source's name as an alias of `tgt`; step 7 deletes the
source entity, and the `ON DELETE CASCADE` foreign keys drop its
remaining alias and memory-link rows.  Step 6 fetches the source entity
by id; the partial-mutation behaviour when that id is missing (the Rust
`?` propagates only after steps 1–5 ran) is not modelled — the claims
below always merge existing ids. -/
def merge_entities (st : Db) (src tgt : Nat) : Option Db :=
  match st.entities.find? (fun e => e.id == src) with
  | none => none
  | some srcEnt =>
    some { st with
      entities := st.entities.filter (fun e => !(e.id == src)),
      entity_aliases := (mergeAliasInsert tgt srcEnt.name
        (mergeAliasesStep src tgt st.entity_aliases)).filter
        (fun a => !(a.entityId == src)),
      memory_entities := (mergeLinksStep src tgt st.memory_entities).filter
        (fun l => !(l.2 == src)),
      relations := (mergeToStep src tgt (mergeFromStep src tgt st.relations)).filter
        (fun r => !(r.fromId == src || r.toId == src)) }

/-- Endpoint substitution `src ↦ tgt`, used to state what a merged
relation looks like. -/
def substEnd (src tgt x : Nat) : Nat :=
  if x = src then tgt else x

/-! ### Deletion and cleanup -/

def entityExistsIn (ents : List Entity) (eid : Nat) : Bool :=
  ents.any (fun e => e.id == eid)

def relDangling (ents : List Entity) (r : Rel) : Bool :=
  !entityExistsIn ents r.fromId || !entityExistsIn ents r.toId

/-- Embeds `delete_memory`.  The connection runs with `PRAGMA foreign_keys = ON`
(set by `init_schema`), so the third statement — `DELETE FROM entities
WHERE id NOT IN (SELECT entity_id FROM memory_entities)` — hits an
immediate `FOREIGN KEY constraint failed` error as soon as a deleted
entity is still referenced by a `relations` row (that foreign key has no
cascade action).  A failed statement is rolled back by itself; the
earlier statements persist, so the result is the partial state paired
with the error message. -/
def delete_memory (st : Db) (mid : Nat) : Db × Option String :=
  -- DELETE FROM memories WHERE id = mid (CASCADE drops its links)
  let st1 : Db := { st with
    memories := st.memories.filter (fun m => !(m.id == mid)),
    memory_entities := st.memory_entities.filter (fun l => !(l.1 == mid)) }
  -- DELETE FROM relations referencing missing entities
  let st2 : Db := { st1 with
    relations := st1.relations.filter (fun r => !relDangling st1.entities r) }
  -- DELETE FROM entities with no memory links
  let orphans := st2.entities.filter (fun e =>
    !(st2.memory_entities.any (fun l => l.2 == e.id)))
  if orphans.any (fun e =>
      st2.relations.any (fun r => r.fromId == e.id || r.toId == e.id)) then
    (st2, some "FOREIGN KEY constraint failed")
  else
    let keptEnts := st2.entities.filter (fun e =>
      st2.memory_entities.any (fun l => l.2 == e.id))
    let st3 : Db := { st2 with
      entities := keptEnts,
      entity_aliases := st2.entity_aliases.filter (fun a => entityExistsIn keptEnts a.entityId),
      memory_entities := st2.memory_entities.filter (fun l => entityExistsIn keptEnts l.2) }
    -- second pass over relations
    let st4 : Db := { st3 with
      relations := st3.relations.filter (fun r => !relDangling st3.entities r) }
    (st4, none)

/-- Embeds `cleanup_database` steps 1–2: drop `memory_entities` rows whose
memory (then whose entity) no longer exists. -/
def cleanupLinks (st : Db) : List (Nat × Nat) :=
  (st.memory_entities.filter (fun l => st.memories.any (fun m => m.id == l.1))).filter
    (fun l => entityExistsIn st.entities l.2)

/-- Embeds `cleanup_database` step 4: drop entities with no memory link left. -/
def cleanupEntities (st : Db) : List Entity :=
  st.entities.filter (fun e => (cleanupLinks st).any (fun l => l.2 == e.id))

/-- Embeds `cleanup_database` steps 3 and 5: drop dangling relations, then drop
relations newly orphaned by the entity deletion of step 4. -/
def cleanupRelations (st : Db) : List Rel :=
  (st.relations.filter (fun r => !relDangling st.entities r)).filter
    (fun r => !relDangling (cleanupEntities st) r)

/-- Embeds `cleanup_database`.  Foreign keys are explicitly switched off for the
whole routine, so the deletes never error — and entity deletion does
*not* cascade (`entity_aliases` rows of deleted entities are left
behind; the routine never touches that table). -/
def cleanup_database (st : Db) : Db :=
  { st with
      entities := cleanupEntities st,
      relations := cleanupRelations st,
      memory_entities := cleanupLinks st }

/-- The §3 global invariant: no relation references a missing entity and
no entity is linked to zero memories. -/
def orphanFree (st : Db) : Bool :=
  st.relations.all (fun r => !relDangling st.entities r) &&
  st.entities.all (fun e => st.memory_entities.any (fun l => l.2 == e.id))

/-! ### Write-path entity resolution (do_save_memory, lib.rs) -/

/-- The per-entity step of `do_save_memory`: exact name-or-alias
resolution, falling back to `upsert_entity` with the extracted type. -/
def resolveOrCreate (st : Db) (t n : String) (a : Option String) : Db × Nat :=
  match find_entity_id_by_name_or_alias st n with
  | some id => (st, id)
  | none => upsert_entity st t n a

/-- The alias-processing arm of `do_save_memory`: merge only when both
names resolved and to *different* ids; a primary-only hit adds an alias;
anything else is a no-op. -/
def processAliasInfo (st : Db) (primaryId aliasId : Option Nat)
    (aliasName : String) : Option Db :=
  match primaryId, aliasId with
  | some pid, some aid =>
    if pid ≠ aid then merge_entities st aid pid else some st
  | some pid, none => some (add_entity_alias st pid aliasName)
  | _, _ => some st

/-! ## Retrieval (collect_relevant_historical_memories, lib.rs) -/

def RAG_CANDIDATES_PER_ENTITY : Nat := 8
def RAG_TOP_K : Nat := 6
def RAG_MAX_CONTEXT_CHARS : Nat := 2800
def RAG_MAX_MEMORY_CHARS : Nat := 520

/-- Models `candidate_map.entry(id).or_insert((content, 0)); entry.1 += 1`:
entries are `(memory id, content, seed-hit count)` (the HashMap's
iteration order is irrelevant to the claims; insertion order is used). -/
def bumpCandidate (acc : List (Nat × String × Nat)) (mid : Nat) (content : String) :
    List (Nat × String × Nat) :=
  if acc.any (fun c => c.1 == mid) then
    acc.map (fun c => if c.1 == mid then (c.1, c.2.1, c.2.2 + 1) else c)
  else acc ++ [(mid, content, 1)]

/-- One memory of a resolved entity: skip the excluded id, otherwise
bump the candidate map. -/
def gatherMemStep (excl : Option Nat) (acc : List (Nat × String × Nat)) (m : Mem) :
    List (Nat × String × Nat) :=
  if excl == some m.id then acc else bumpCandidate acc m.id m.content

/-- One extracted name: resolve it with the fuzzy `get_entity_by_name`;
on a hit, fold up to `RAG_CANDIDATES_PER_ENTITY` of the entity's
memories (most recent first) into the candidate map. -/
def gatherStep (st : Db) (excl : Option Nat) (acc : List (Nat × String × Nat))
    (n : String) : List (Nat × String × Nat) :=
  match get_entity_by_name st n with
  | none => acc
  | some e =>
    ((get_memories_for_entity st e.id).take RAG_CANDIDATES_PER_ENTITY).foldl
      (gatherMemStep excl) acc

/-- The candidate-gathering loop of `collect_relevant_historical_memories`. -/
def collect_candidates (st : Db) (names : List String) (excl : Option Nat) :
    List (Nat × String × Nat) :=
  names.foldl (gatherStep st excl) []

/-- Embeds `truncate_for_prompt`: keep the first `maxChars` characters and append
a single `…` character when the input is longer. -/
def truncate_for_prompt (input : String) (maxChars : Nat) : String :=
  if input.length ≤ maxChars then input
  else String.mk (input.toList.take maxChars ++ ['…'])

/-- A scored candidate as seen by the selection loop: whether it passed
the relevance gate (`score ≥ threshold || entity_hits > 0 ||
token_overlap ≥ 2`, all independent of the budget) and its content. -/
structure Cand where
  relevant : Bool
  content : String
deriving Repr, DecidableEq

/-- The snippet packed for one candidate: `allow = min(budget_left,
RAG_MAX_MEMORY_CHARS)`; truncate when the trimmed content is longer than
`allow`. -/
def snippetFor (budget : Nat) (trimmed : String) : String :=
  if min budget RAG_MAX_MEMORY_CHARS < trimmed.length then
    truncate_for_prompt trimmed (min budget RAG_MAX_MEMORY_CHARS)
  else trimmed

/-- The greedy packing loop of `collect_relevant_historical_memories`,
with the character budget (`RAG_MAX_CONTEXT_CHARS` at the call site) as
a parameter; returns each selected candidate with its snippet.
Irrelevant, empty-after-trim, and zero-length-snippet candidates are
skipped (`continue`); budget exhaustion stops the loop (`break`); the
budget decreases by the snippet's character count (`saturating_sub`). -/
def select_snippets (budget : Nat) : List Cand → List (Cand × String)
  | [] => []
  | c :: rest =>
    if !c.relevant then select_snippets budget rest
    else if budget == 0 then []
    else if c.content.trim.length == 0 then select_snippets budget rest
    else if (snippetFor budget c.content.trim).length == 0 then select_snippets budget rest
    else (c, snippetFor budget c.content.trim) ::
      select_snippets (budget - (snippetFor budget c.content.trim).length) rest

/-! ## Concrete states and blobs used by counterexamples and witnesses -/

/-- An empty database (`AUTOINCREMENT` counters start at 1). -/
def db0 : Db := ⟨[], [], [], [], [], 1⟩

def rankJson : String := "\x7b\"rank\": \"captain\"\x7d"

def ageJson : String := "\x7b\"age\": 30\x7d"

/-- One entity named `Alexander` with one linked memory. -/
def dbAlexander : Db :=
  ⟨[⟨1, "Person", "Alexander", none⟩], [], [], [⟨1, "met him", 5⟩], [(1, 1)], 2⟩

/-- Two entities, no relations yet. -/
def dbTwoEntities : Db :=
  ⟨[⟨1, "Person", "A", none⟩, ⟨2, "Person", "B", none⟩], [], [],
   [⟨1, "note", 0⟩], [(1, 1), (1, 2)], 3⟩

/-- Two entities whose only memory link is memory 1, plus a relation
between them: the state on which `delete_memory 1` must prune both
entities and the relation. -/
def dbDeleteScenario : Db :=
  ⟨[⟨1, "Person", "X", none⟩, ⟨2, "Person", "Y", none⟩], [],
   [⟨1, 2, "knows", 1⟩], [⟨1, "only note", 0⟩], [(1, 1), (1, 2)], 3⟩

/-- The ally-collision merge scenario: source 1 and target 2 both relate
to entity 3 by `ally`. -/
def dbMergeScenario : Db :=
  ⟨[⟨1, "Person", "src", none⟩, ⟨2, "Person", "tgt", none⟩, ⟨3, "Person", "c", none⟩],
   [], [⟨1, 3, "ally", 1⟩, ⟨2, 3, "ally", 1⟩],
   [⟨1, "note", 0⟩], [(1, 1), (1, 2), (1, 3)], 4⟩

/-- The state `merge_entities dbMergeScenario 1 2` produces: the source
row and its colliding `ally` duplicate are gone, `src` survives as an
alias of entity 2. -/
def dbMergeAfter : Db :=
  ⟨[⟨2, "Person", "tgt", none⟩, ⟨3, "Person", "c", none⟩],
   [⟨2, "src"⟩], [⟨2, 3, "ally", 1⟩], [⟨1, "note", 0⟩], [(1, 2), (1, 3)], 4⟩

theorem string_mk_toList (s : String) : String.mk s.toList = s := rfl

/-- Claim C4. For the spec's own truncation example
`\x7b"entities":[\x7b"name":"X"`, the repair path does *not* close the
structure innermost first: the Rust code appends every missing `]`
before every missing `\x7d`, producing `\x7b"entities":[\x7b"name":"X"]\x7d\x7d`,
which is not syntactically valid JSON (the inner object is "closed" by
`]`), so the post-repair `serde_json` parse in `parse_extracted_data`
fails; the innermost-first closing the spec describes,
`\x7b"entities":[\x7b"name":"X"\x7d]\x7d`, would have been valid JSON. -/
theorem repair_spec_example_fails :
    repair_truncated_json "\x7b\"entities\":[\x7b\"name\":\"X\""
      = some "\x7b\"entities\":[\x7b\"name\":\"X\"]\x7d\x7d" ∧
    jsonValid "\x7b\"entities\":[\x7b\"name\":\"X\"]\x7d\x7d" = false ∧
    jsonValid "\x7b\"entities\":[\x7b\"name\":\"X\"\x7d]\x7d" = true := by
  refine ⟨?_, by decide, by decide⟩
  decide

/-- Claim C9. Response repair is the identity on valid input: if the strict
parse accepts `s`, the pipeline returns `s` itself without attempting
repair; and on any string whose walk ends balanced and outside a string
literal, `repair_truncated_json` appends nothing — it returns either
`none` or `s` unchanged. -/
theorem repair_identity_on_valid (strict : String → Bool) (s : String)
    (hs : strict s = true) (hb : balancedWalk s = true) :
    parsePipeline strict s = some s ∧
    (repair_truncated_json s = none ∨ repair_truncated_json s = some s) := by
  constructor
  · unfold parsePipeline
    rw [hs]
    simp
  · unfold balancedWalk at hb
    simp only [Bool.and_eq_true, beq_iff_eq, Bool.not_eq_true'] at hb
    obtain ⟨⟨hsq, hcu⟩, hstr⟩ := hb
    unfold repair_truncated_json repairFinish repairOut
    rw [hsq, hcu, hstr]
    simp only [Bool.false_eq_true, if_false, Int.toNat_zero, List.replicate_zero,
      List.append_nil, string_mk_toList, beq_self_eq_true, Bool.and_self, if_true]
    split
    · exact Or.inr rfl
    · exact Or.inl rfl

/-- Witness for `repair_identity_on_valid` at `strict := jsonValid` and
`s := \x7b"a":1\x7d`. -/
theorem repair_identity_on_valid_witness :
    jsonValid "\x7b\"a\":1\x7d" = true ∧ balancedWalk "\x7b\"a\":1\x7d" = true ∧
    (parsePipeline jsonValid "\x7b\"a\":1\x7d" = some "\x7b\"a\":1\x7d" ∧
     (repair_truncated_json "\x7b\"a\":1\x7d" = none ∨
      repair_truncated_json "\x7b\"a\":1\x7d" = some "\x7b\"a\":1\x7d")) :=
  ⟨by decide, by decide,
   repair_identity_on_valid jsonValid "\x7b\"a\":1\x7d" (by decide) (by decide)⟩

/-! ## Entity upsert (C1) -/

theorem upsertEntityNoneEq (st : Db) (t n : String) (a : Option String)
    (h : st.entities.find? (fun e => e.etype == t && e.name == n) = none) :
    upsert_entity st t n a =
      ({ st with
          entities := st.entities ++ [⟨st.nextEntityId, t, n, a⟩],
          nextEntityId := st.nextEntityId + 1 }, st.nextEntityId) := by
  unfold upsert_entity
  rw [h]

theorem upsertEntitySomeEq (st : Db) (t n : String) (a : Option String) (e : Entity)
    (h : st.entities.find? (fun e' => e'.etype == t && e'.name == n) = some e) :
    upsert_entity st t n a =
      ({ st with entities := st.entities.map (fun e' =>
          if e'.etype == t && e'.name == n then { e' with attrs := coalesceAttrs a e'.attrs }
          else e') }, e.id) := by
  unfold upsert_entity
  rw [h]

/-- Claim C1, counterexample. Upserting `(Person, "Li Ming")` with
`\x7b"rank": "captain"\x7d` and then again with `\x7b"age": 30\x7d`
leaves a single row whose attribute blob is exactly the *second* blob:
the `rank` field does not survive, contradicting the claimed field-wise
merge. -/
theorem upsert_li_ming_rank_lost :
    (upsert_entity (upsert_entity db0 "Person" "Li Ming" (some rankJson)).1
        "Person" "Li Ming" (some ageJson)).1.entities
      = [⟨1, "Person", "Li Ming", some ageJson⟩] ∧
    strContainsS ageJson "rank" = false ∧
    strContainsS ageJson "age" = true := by
  refine ⟨by decide, by decide, by decide⟩

/-- Claim C1, amended. Starting from any state with no `(t, n)` row,
upserting `(t, n)` with blob `a1` and then with blob `a2` leaves exactly
one `(t, n)` row, and its attribute blob is the *blob-level* coalesce
`COALESCE(a2, a1)` — the new blob replaces the old wholesale whenever it
is non-null; only a null new blob preserves the old one. -/
theorem upsert_entity_twice_coalesce (st : Db) (t n : String) (a1 a2 : Option String)
    (h : st.entities.find? (fun e => e.etype == t && e.name == n) = none) :
    (upsert_entity (upsert_entity st t n a1).1 t n a2).1.entities.filter
        (fun e => e.etype == t && e.name == n)
      = [⟨st.nextEntityId, t, n, coalesceAttrs a2 a1⟩] := by
  have hne : ∀ e ∈ st.entities, ¬((e.etype == t && e.name == n) = true) :=
    List.find?_eq_none.mp h
  rw [upsertEntityNoneEq st t n a1 h]
  have hpred : ((⟨st.nextEntityId, t, n, a1⟩ : Entity).etype == t &&
      (⟨st.nextEntityId, t, n, a1⟩ : Entity).name == n) = true := by simp
  have hfind2 : (st.entities ++ [(⟨st.nextEntityId, t, n, a1⟩ : Entity)]).find?
      (fun e => e.etype == t && e.name == n) = some (⟨st.nextEntityId, t, n, a1⟩ : Entity) := by
    rw [List.find?_append, h]
    simp [List.find?_cons, hpred]
  rw [upsertEntitySomeEq _ t n a2 _ hfind2]
  simp only [List.map_append, List.filter_append]
  have hmap : st.entities.map (fun e' =>
      if e'.etype == t && e'.name == n then { e' with attrs := coalesceAttrs a2 e'.attrs }
      else e') = st.entities := by
    have := List.map_congr_left (l := st.entities)
      (g := id)
      (f := fun e' => if e'.etype == t && e'.name == n then
        { e' with attrs := coalesceAttrs a2 e'.attrs } else e')
      (fun e he => by simp [hne e he])
    simpa using this
  rw [hmap]
  have hnil : st.entities.filter (fun e => e.etype == t && e.name == n) = [] :=
    List.filter_eq_nil_iff.mpr hne
  rw [hnil]
  simp [hpred]

/-- Witness for `upsert_entity_twice_coalesce` on the Li Ming scenario. -/
theorem upsert_entity_twice_coalesce_witness :
    db0.entities.find? (fun e => e.etype == "Person" && e.name == "Li Ming") = none ∧
    (upsert_entity (upsert_entity db0 "Person" "Li Ming" (some rankJson)).1
        "Person" "Li Ming" (some ageJson)).1.entities.filter
        (fun e => e.etype == "Person" && e.name == "Li Ming")
      = [⟨db0.nextEntityId, "Person", "Li Ming", coalesceAttrs (some ageJson) (some rankJson)⟩] :=
  ⟨by decide,
   upsert_entity_twice_coalesce db0 "Person" "Li Ming" (some rankJson) (some ageJson) (by decide)⟩

/-! ## Write-path resolution (C6) -/

/-- Claim C6. Write-path entity resolution tries an exact `entities.name`
match first, then an exact `entity_aliases.alias` match, and only when
both miss does it create a new entity of the extracted type — the
fallback fires even when some existing entity name contains the new
name as a substring, i.e. no fuzzy matching on the write path. -/
theorem resolve_or_create_spec (st : Db) (t n : String) (a : Option String) :
    (∀ e, st.entities.find? (fun e' => e'.name == n) = some e →
      resolveOrCreate st t n a = (st, e.id)) ∧
    (∀ al, st.entities.find? (fun e => e.name == n) = none →
      st.entity_aliases.find? (fun a' => a'.aliasName == n) = some al →
      resolveOrCreate st t n a = (st, al.entityId)) ∧
    (st.entities.find? (fun e => e.name == n) = none →
      st.entity_aliases.find? (fun a' => a'.aliasName == n) = none →
      (resolveOrCreate st t n a).2 = st.nextEntityId ∧
      (⟨st.nextEntityId, t, n, a⟩ : Entity) ∈ (resolveOrCreate st t n a).1.entities) := by
  refine ⟨?_, ?_, ?_⟩
  · intro e he
    unfold resolveOrCreate find_entity_id_by_name_or_alias
    rw [he]
  · intro al hn ha
    unfold resolveOrCreate find_entity_id_by_name_or_alias
    rw [hn, ha]
    rfl
  · intro hn ha
    have hn' : st.entities.find? (fun e => e.etype == t && e.name == n) = none := by
      rw [List.find?_eq_none] at hn ⊢
      intro e he
      have := hn e he
      simp only [Bool.and_eq_true, beq_iff_eq] at *
      exact fun hc => this hc.2
    unfold resolveOrCreate find_entity_id_by_name_or_alias
    rw [hn, ha]
    rw [upsertEntityNoneEq st t n a hn']
    constructor
    · rfl
    · simp

/-- Witness for `resolve_or_create_spec`: resolving `Alex` in a store
whose only entity is named `Alexander` (a substring superset) creates a
fresh entity instead of matching fuzzily. -/
theorem resolve_or_create_spec_witness :
    (resolveOrCreate dbAlexander "Person" "Alex" none).2 = dbAlexander.nextEntityId ∧
    (⟨dbAlexander.nextEntityId, "Person", "Alex", none⟩ : Entity) ∈
      (resolveOrCreate dbAlexander "Person" "Alex" none).1.entities :=
  (resolve_or_create_spec dbAlexander "Person" "Alex" none).2.2 (by decide) (by decide)

/-! ## Relation upsert (C7) -/

/-- Claim C7. For existing endpoints and a triple not yet present,
`upsert_relation` inserts exactly one row with strength 1, and a second
call on the same triple leaves exactly one row with strength 2 — never a
duplicate row. -/
theorem upsert_relation_twice (st : Db) (f t : Nat) (rt : String)
    (hf : st.entities.any (fun e => e.id == f) = true)
    (ht : st.entities.any (fun e => e.id == t) = true)
    (h0 : st.relations.any (fun r => r.fromId == f && r.toId == t && r.rtype == rt) = false) :
    ∃ st1 st2,
      upsert_relation st f t rt = some st1 ∧
      st1.relations.filter (fun r => r.fromId == f && r.toId == t && r.rtype == rt)
        = [⟨f, t, rt, 1⟩] ∧
      upsert_relation st1 f t rt = some st2 ∧
      st2.relations.filter (fun r => r.fromId == f && r.toId == t && r.rtype == rt)
        = [⟨f, t, rt, 2⟩] := by
  have hall : ∀ r ∈ st.relations,
      ¬((r.fromId == f && r.toId == t && r.rtype == rt) = true) :=
    List.any_eq_false.mp h0
  have hpred : (((⟨f, t, rt, 1⟩ : Rel).fromId == f && (⟨f, t, rt, 1⟩ : Rel).toId == t &&
      (⟨f, t, rt, 1⟩ : Rel).rtype == rt)) = true := by simp
  have hmap : st.relations.map (fun r =>
      if r.fromId == f && r.toId == t && r.rtype == rt then
        { r with strength := r.strength + 1 } else r) = st.relations := by
    have := List.map_congr_left (l := st.relations)
      (g := id)
      (f := fun r => if r.fromId == f && r.toId == t && r.rtype == rt then
        { r with strength := r.strength + 1 } else r)
      (fun r hr => by simp [hall r hr])
    simpa using this
  refine ⟨{ st with relations := st.relations ++ [(⟨f, t, rt, 1⟩ : Rel)] },
         { st with relations := st.relations ++ [(⟨f, t, rt, 2⟩ : Rel)] },
         ?_, ?_, ?_, ?_⟩
  · unfold upsert_relation
    rw [h0, hf, ht]
    rfl
  · simp only [List.filter_append]
    rw [List.filter_eq_nil_iff.mpr hall]
    simp [hpred]
  · unfold upsert_relation
    have hany : (st.relations ++ [(⟨f, t, rt, 1⟩ : Rel)]).any
        (fun r => r.fromId == f && r.toId == t && r.rtype == rt) = true := by
      rw [List.any_append]
      simp [hpred]
    rw [hany]
    simp only [List.map_append, hmap]
    simp [hpred]
  · simp only [List.filter_append]
    rw [List.filter_eq_nil_iff.mpr hall]
    simp [hpred]

/-- Witness for `upsert_relation_twice`: the `(A → B, "colleague")`
asserted-twice scenario. -/
theorem upsert_relation_twice_witness :
    dbTwoEntities.entities.any (fun e => e.id == 1) = true ∧
    (∃ st1 st2,
      upsert_relation dbTwoEntities 1 2 "colleague" = some st1 ∧
      st1.relations.filter (fun r => r.fromId == 1 && r.toId == 2 && r.rtype == "colleague")
        = [⟨1, 2, "colleague", 1⟩] ∧
      upsert_relation st1 1 2 "colleague" = some st2 ∧
      st2.relations.filter (fun r => r.fromId == 1 && r.toId == 2 && r.rtype == "colleague")
        = [⟨1, 2, "colleague", 2⟩]) :=
  ⟨by decide, upsert_relation_twice dbTwoEntities 1 2 "colleague"
    (by decide) (by decide) (by decide)⟩

/-! ## Memory deletion (C3) -/

/-- Claim C3. With `PRAGMA foreign_keys = ON`, `delete_memory` on the
spec's own scenario — a memory that is the only link of entities X and Y
which are joined by a relation — aborts on its entity-pruning statement
with a foreign-key error: the memory and its links are already gone, but
the orphaned entities and their relation survive, so the orphan-free
invariant does *not* hold after `delete_memory`. -/
theorem delete_memory_fk_abort :
    (delete_memory dbDeleteScenario 1).2 = some "FOREIGN KEY constraint failed" ∧
    (delete_memory dbDeleteScenario 1).1.entities = dbDeleteScenario.entities ∧
    (delete_memory dbDeleteScenario 1).1.relations = dbDeleteScenario.relations ∧
    (delete_memory dbDeleteScenario 1).1.memories = [] ∧
    (delete_memory dbDeleteScenario 1).1.memory_entities = [] ∧
    orphanFree (delete_memory dbDeleteScenario 1).1 = false := by
  refine ⟨by decide, by decide, by decide, by decide, by decide, by decide⟩

/-! ## Retrieval budget monotonicity (C8) -/

theorem truncate_for_prompt_length (s : String) (m : Nat) (h : m < s.length) :
    (truncate_for_prompt s m).length = m + 1 := by
  unfold truncate_for_prompt
  rw [if_neg (by omega)]
  show (s.toList.take m ++ ['…']).length = m + 1
  rw [List.length_append, List.length_take]
  have : s.toList.length = s.length := rfl
  simp [this]
  omega

theorem snippetFor_length (b : Nat) (s : String) :
    (snippetFor b s).length =
      if min b RAG_MAX_MEMORY_CHARS < s.length then min b RAG_MAX_MEMORY_CHARS + 1
      else s.length := by
  unfold snippetFor
  split
  · rw [truncate_for_prompt_length _ _ (by omega)]
  · rfl

/-- After packing one candidate, a larger remaining budget stays
larger. -/
theorem budget_step_mono (t b1 b2 : Nat) (h : b1 ≤ b2) :
    b1 - (snippetFor b1 ⟨List.replicate t ' '⟩).length ≤
    b2 - (snippetFor b2 ⟨List.replicate t ' '⟩).length := by
  rw [snippetFor_length, snippetFor_length]
  have : (String.mk (List.replicate t ' ')).length = t := by
    show (List.replicate t ' ').length = t
    simp
  rw [this]
  split_ifs <;> omega

/-- Claim C8. Holding the ranked candidate list fixed (the gathering,
scoring, and sorting of `collect_relevant_historical_memories` do not
read the budget), enlarging the character budget never drops a selected
candidate: the candidates selected under the smaller budget are a
sublist of those selected under the larger one. -/
theorem select_snippets_budget_mono (cands : List Cand) (b1 b2 : Nat) (h : b1 ≤ b2) :
    ((select_snippets b1 cands).map Prod.fst).Sublist
      ((select_snippets b2 cands).map Prod.fst) := by
  induction cands generalizing b1 b2 with
  | nil => simp [select_snippets]
  | cons c rest ih =>
    by_cases hrel : c.relevant
    · rcases Nat.eq_zero_or_pos b1 with hb1 | hb1
      · subst hb1
        simp only [select_snippets, hrel, Bool.not_true, Bool.false_eq_true, if_false]
        simp only [beq_self_eq_true, if_true]
        exact List.nil_sublist _
      · have hb1' : (b1 == 0) = false := by simp; omega
        have hb2' : (b2 == 0) = false := by simp; omega
        by_cases htr : c.content.trim.length = 0
        · have htrb : (c.content.trim.length == 0) = true := by simpa using htr
          simp only [select_snippets, hrel, Bool.not_true, Bool.false_eq_true, if_false,
            hb1', hb2', htrb, if_true]
          exact ih b1 b2 h
        · have htrb : (c.content.trim.length == 0) = false := by simpa using htr
          have hs1 : ((snippetFor b1 c.content.trim).length == 0) = false := by
            rw [snippetFor_length]
            simp only [beq_eq_false_iff_ne]
            split <;> omega
          have hs2 : ((snippetFor b2 c.content.trim).length == 0) = false := by
            rw [snippetFor_length]
            simp only [beq_eq_false_iff_ne]
            split <;> omega
          simp only [select_snippets, hrel, Bool.not_true, Bool.false_eq_true, if_false,
            hb1', hb2', htrb, hs1, hs2, List.map_cons]
          refine List.Sublist.cons₂ c (ih _ _ ?_)
          have h1 := snippetFor_length b1 c.content.trim
          have h2 := snippetFor_length b2 c.content.trim
          rw [h1, h2]
          rw [Nat.min_def, Nat.min_def]
          split_ifs <;> omega
    · have hrel' : c.relevant = false := by simpa using hrel
      simp only [select_snippets, hrel', Bool.not_false, if_true]
      exact ih b1 b2 h

/-- Witness for `select_snippets_budget_mono` at budgets 3 and 100 on a
single relevant candidate. -/
theorem select_snippets_budget_mono_witness :
    ((select_snippets 3 [⟨true, "hello"⟩]).map Prod.fst).Sublist
      ((select_snippets 100 [⟨true, "hello"⟩]).map Prod.fst) :=
  select_snippets_budget_mono [⟨true, "hello"⟩] 3 100 (by omega)

/-! ## Retrieval candidate gathering (C5) -/

theorem bumpCandidate_mem_key (acc : List (Nat × String × Nat)) (mid : Nat) (ct : String)
    (k : Nat) (h : ∃ c ∈ acc, c.1 = k) : ∃ c ∈ bumpCandidate acc mid ct, c.1 = k := by
  obtain ⟨c, hc, hk⟩ := h
  unfold bumpCandidate
  split
  · refine ⟨if c.1 == mid then (c.1, c.2.1, c.2.2 + 1) else c,
      List.mem_map_of_mem _ hc, ?_⟩
    split <;> simpa using hk
  · exact ⟨c, by simp [hc], hk⟩

theorem bumpCandidate_adds_key (acc : List (Nat × String × Nat)) (mid : Nat) (ct : String) :
    ∃ c ∈ bumpCandidate acc mid ct, c.1 = mid := by
  unfold bumpCandidate
  split
  · rename_i hany
    obtain ⟨c, hc, hp⟩ := List.any_eq_true.mp hany
    refine ⟨_, List.mem_map_of_mem _ hc, ?_⟩
    simp only [hp, if_true]
    exact beq_iff_eq.mp hp
  · exact ⟨(mid, ct, 1), by simp, rfl⟩

theorem bumpCandidate_counts (acc : List (Nat × String × Nat)) (mid : Nat) (ct : String)
    (h : ∀ c ∈ acc, 1 ≤ c.2.2) : ∀ c ∈ bumpCandidate acc mid ct, 1 ≤ c.2.2 := by
  unfold bumpCandidate
  split
  · intro c hc
    obtain ⟨c0, hc0, rfl⟩ := List.mem_map.mp hc
    have := h c0 hc0
    split
    · exact Nat.le_succ_of_le this
    · exact this
  · intro c hc
    rcases List.mem_append.mp hc with h1 | h1
    · exact h c h1
    · simp only [List.mem_singleton] at h1
      subst h1
      simp

theorem gatherMemFold_mem_key (excl : Option Nat) (ms : List Mem)
    (acc : List (Nat × String × Nat)) (k : Nat) (h : ∃ c ∈ acc, c.1 = k) :
    ∃ c ∈ ms.foldl (gatherMemStep excl) acc, c.1 = k := by
  induction ms generalizing acc with
  | nil => exact h
  | cons m0 ms ih =>
    refine ih _ ?_
    unfold gatherMemStep
    split
    · exact h
    · exact bumpCandidate_mem_key _ _ _ _ h

theorem gatherMemFold_counts (excl : Option Nat) (ms : List Mem)
    (acc : List (Nat × String × Nat)) (h : ∀ c ∈ acc, 1 ≤ c.2.2) :
    ∀ c ∈ ms.foldl (gatherMemStep excl) acc, 1 ≤ c.2.2 := by
  induction ms generalizing acc with
  | nil => exact h
  | cons m0 ms ih =>
    refine ih _ ?_
    unfold gatherMemStep
    split
    · exact h
    · exact bumpCandidate_counts _ _ _ h

theorem gatherMemFold_adds (excl : Option Nat) (ms : List Mem)
    (acc : List (Nat × String × Nat)) (m : Mem) (hm : m ∈ ms) (hx : excl ≠ some m.id) :
    ∃ c ∈ ms.foldl (gatherMemStep excl) acc, c.1 = m.id := by
  induction ms generalizing acc with
  | nil => cases hm
  | cons m0 ms ih =>
    rcases List.mem_cons.mp hm with rfl | hm'
    · refine gatherMemFold_mem_key excl ms _ _ ?_
      unfold gatherMemStep
      have hxb : (excl == some m.id) = false := beq_eq_false_iff_ne.mpr hx
      rw [hxb]
      simp only [Bool.false_eq_true, if_false]
      exact bumpCandidate_adds_key _ _ _
    · exact ih _ hm'

theorem gatherFold_mem_key (st : Db) (excl : Option Nat) (names : List String)
    (acc : List (Nat × String × Nat)) (k : Nat) (h : ∃ c ∈ acc, c.1 = k) :
    ∃ c ∈ names.foldl (gatherStep st excl) acc, c.1 = k := by
  induction names generalizing acc with
  | nil => exact h
  | cons n0 ns ih =>
    refine ih _ ?_
    unfold gatherStep
    split
    · exact h
    · exact gatherMemFold_mem_key _ _ _ _ h

theorem gatherFold_counts (st : Db) (excl : Option Nat) (names : List String)
    (acc : List (Nat × String × Nat)) (h : ∀ c ∈ acc, 1 ≤ c.2.2) :
    ∀ c ∈ names.foldl (gatherStep st excl) acc, 1 ≤ c.2.2 := by
  induction names generalizing acc with
  | nil => exact h
  | cons n0 ns ih =>
    refine ih _ ?_
    unfold gatherStep
    split
    · exact h
    · exact gatherMemFold_counts _ _ _ h

theorem gatherFold_adds (st : Db) (excl : Option Nat) (names : List String)
    (acc : List (Nat × String × Nat)) (n : String) (e : Entity) (m : Mem)
    (hn : n ∈ names) (he : get_entity_by_name st n = some e)
    (hm : m ∈ (get_memories_for_entity st e.id).take RAG_CANDIDATES_PER_ENTITY)
    (hx : excl ≠ some m.id) :
    ∃ c ∈ names.foldl (gatherStep st excl) acc, c.1 = m.id := by
  induction names generalizing acc with
  | nil => cases hn
  | cons n0 ns ih =>
    rcases List.mem_cons.mp hn with rfl | hn'
    · refine gatherFold_mem_key st excl ns _ _ ?_
      unfold gatherStep
      rw [he]
      exact gatherMemFold_adds _ _ _ _ hm hx
    · exact ih _ hn'

/-- Claim C5, counterexample. Candidate gathering is *not* an exact
name-or-alias resolution: in a store whose only entity is named
`Alexander` (with no aliases at all), the extracted name `Alex` — which
matches no entity name and no alias exactly — still resolves via the
`LIKE '%Alex%'` substring lookup and contributes that entity's linked
memory to the candidate map. -/
theorem collect_candidates_fuzzy_hit :
    collect_candidates dbAlexander ["Alex"] none = [(1, "met him", 1)] ∧
    dbAlexander.entities.all (fun e => !(e.name == "Alex")) = true ∧
    dbAlexander.entity_aliases = [] := by
  refine ⟨by decide, by decide, by decide⟩

/-- Claim C5, amended. Candidate gathering resolves each extracted name
with the substring (`LIKE`) name-then-alias lookup `get_entity_by_name`;
only when that lookup finds an entity are up to
`RAG_CANDIDATES_PER_ENTITY = 8` of its linked memories (most recent
first, excluded id skipped) added to the candidate map, every entry
carrying a seed-hit count of at least 1. -/
theorem collect_candidates_gathering (st : Db) (names : List String) (excl : Option Nat) :
    ((∀ n ∈ names, get_entity_by_name st n = none) →
      collect_candidates st names excl = []) ∧
    (∀ c ∈ collect_candidates st names excl, 1 ≤ c.2.2) ∧
    (∀ n e m, n ∈ names → get_entity_by_name st n = some e →
      m ∈ (get_memories_for_entity st e.id).take RAG_CANDIDATES_PER_ENTITY →
      excl ≠ some m.id →
      ∃ c ∈ collect_candidates st names excl, c.1 = m.id) := by
  refine ⟨?_, ?_, ?_⟩
  · intro hnone
    unfold collect_candidates
    have key : ∀ (ns : List String), (∀ n ∈ ns, get_entity_by_name st n = none) →
        ∀ acc, ns.foldl (gatherStep st excl) acc = acc := by
      intro ns hns
      induction ns with
      | nil => intro acc; rfl
      | cons n0 ns ih =>
        intro acc
        show ns.foldl _ (gatherStep st excl acc n0) = acc
        have h0 : gatherStep st excl acc n0 = acc := by
          unfold gatherStep
          rw [hns n0 (by simp)]
        rw [h0]
        exact ih (fun n hn => hns n (by simp [hn])) acc
    exact key names hnone []
  · exact gatherFold_counts st excl names [] (by intro c hc; cases hc)
  · intro n e m hn he hm hx
    exact gatherFold_adds st excl names [] n e m hn he hm hx

/-- Witness for `collect_candidates_gathering`: the exact name
`Alexander` surfaces its linked memory (id 1). -/
theorem collect_candidates_gathering_witness :
    ∃ c ∈ collect_candidates dbAlexander ["Alexander"] none, c.1 = 1 :=
  (collect_candidates_gathering dbAlexander ["Alexander"] none).2.2
    "Alexander" ⟨1, "Person", "Alexander", none⟩ ⟨1, "met him", 5⟩
    (by decide) (by decide) (by decide) (by decide)

/-! ## Merge engine (C2, C10) -/

theorem mergeFromRow_cases (src tgt : Nat) (rels : List Rel) (r : Rel) :
    mergeFromRow src tgt rels r = r ∨
    (r.fromId = src ∧
     rels.any (fun r' =>
       r'.fromId == tgt && r'.toId == r.toId && r'.rtype == r.rtype) = false ∧
     mergeFromRow src tgt rels r = { r with fromId := tgt }) := by
  unfold mergeFromRow
  split_ifs with h1 h2
  · exact Or.inl rfl
  · exact Or.inr ⟨by simpa using h1, by simpa using h2, rfl⟩
  · exact Or.inl rfl

theorem mergeToRow_cases (src tgt : Nat) (rels : List Rel) (r : Rel) :
    mergeToRow src tgt rels r = r ∨
    (r.toId = src ∧
     rels.any (fun r' =>
       r'.fromId == r.fromId && r'.toId == tgt && r'.rtype == r.rtype) = false ∧
     mergeToRow src tgt rels r = { r with toId := tgt }) := by
  unfold mergeToRow
  split_ifs with h1 h2
  · exact Or.inl rfl
  · exact Or.inr ⟨by simpa using h1, by simpa using h2, rfl⟩
  · exact Or.inl rfl

theorem mergeFromRow_keeps (src tgt : Nat) (rels : List Rel) (r : Rel)
    (hf : r.fromId ≠ src) : mergeFromRow src tgt rels r = r := by
  unfold mergeFromRow
  rw [if_neg (by simpa using hf)]

theorem mergeToRow_keeps (src tgt : Nat) (rels : List Rel) (r : Rel)
    (ht : r.toId ≠ src) : mergeToRow src tgt rels r = r := by
  unfold mergeToRow
  rw [if_neg (by simpa using ht)]

/-- Step 3 covers every `from = src` row: the updated triple is present
in the image — either the row itself migrated, or the pre-existing
conflicting row (whose `from` is `tgt ≠ src`, so step 3 leaves it
alone) carries it. -/
theorem mergeFromStep_covers (src tgt : Nat) (rels : List Rel) (hst : src ≠ tgt)
    (r : Rel) (hr : r ∈ rels) (hf : r.fromId = src) :
    ∃ q ∈ mergeFromStep src tgt rels,
      q.fromId = tgt ∧ q.toId = r.toId ∧ q.rtype = r.rtype := by
  unfold mergeFromStep
  by_cases hc : rels.any (fun r' =>
      r'.fromId == tgt && r'.toId == r.toId && r'.rtype == r.rtype) = true
  · obtain ⟨r', hr', hp⟩ := List.any_eq_true.mp hc
    simp only [Bool.and_eq_true, beq_iff_eq] at hp
    obtain ⟨⟨hp1, hp2⟩, hp3⟩ := hp
    refine ⟨r', List.mem_map.mpr ⟨r', hr', ?_⟩, hp1, hp2, hp3⟩
    exact mergeFromRow_keeps _ _ _ _ (by rw [hp1]; exact fun h => hst h.symm)
  · have hc' : rels.any (fun r' =>
        r'.fromId == tgt && r'.toId == r.toId && r'.rtype == r.rtype) = false := by
      simpa using hc
    refine ⟨{ r with fromId := tgt }, List.mem_map.mpr ⟨r, hr, ?_⟩, rfl, rfl, rfl⟩
    unfold mergeFromRow
    rw [if_pos (by simpa using hf), if_neg (by simp [hc'])]

/-- Step 4 covers every `to = src` row of its input likewise. -/
theorem mergeToStep_covers (src tgt : Nat) (rels : List Rel) (hst : src ≠ tgt)
    (r : Rel) (hr : r ∈ rels) (ht : r.toId = src) :
    ∃ q ∈ mergeToStep src tgt rels,
      q.fromId = r.fromId ∧ q.toId = tgt ∧ q.rtype = r.rtype := by
  unfold mergeToStep
  by_cases hc : rels.any (fun r' =>
      r'.fromId == r.fromId && r'.toId == tgt && r'.rtype == r.rtype) = true
  · obtain ⟨r', hr', hp⟩ := List.any_eq_true.mp hc
    simp only [Bool.and_eq_true, beq_iff_eq] at hp
    obtain ⟨⟨hp1, hp2⟩, hp3⟩ := hp
    refine ⟨r', List.mem_map.mpr ⟨r', hr', ?_⟩, hp1, hp2, hp3⟩
    exact mergeToRow_keeps _ _ _ _ (by rw [hp2]; exact fun h => hst h.symm)
  · have hc' : rels.any (fun r' =>
        r'.fromId == r.fromId && r'.toId == tgt && r'.rtype == r.rtype) = false := by
      simpa using hc
    refine ⟨{ r with toId := tgt }, List.mem_map.mpr ⟨r, hr, ?_⟩, rfl, rfl, rfl⟩
    unfold mergeToRow
    rw [if_pos (by simpa using ht), if_neg (by simp [hc'])]

theorem mergeFromStep_keeps (src tgt : Nat) (rels : List Rel) (r : Rel)
    (hr : r ∈ rels) (hf : r.fromId ≠ src) : r ∈ mergeFromStep src tgt rels :=
  List.mem_map.mpr ⟨r, hr, mergeFromRow_keeps _ _ _ _ hf⟩

theorem mergeToStep_keeps (src tgt : Nat) (rels : List Rel) (r : Rel)
    (hr : r ∈ rels) (ht : r.toId ≠ src) : r ∈ mergeToStep src tgt rels :=
  List.mem_map.mpr ⟨r, hr, mergeToRow_keeps _ _ _ _ ht⟩

/-- Step 3 preserves triple uniqueness: a row migrates only when no
equal triple exists, and two migrating rows shared `from = src`. -/
theorem mergeFromStep_pairwise (src tgt : Nat) (rels : List Rel)
    (hp : rels.Pairwise (fun a b =>
      (a.fromId, a.toId, a.rtype) ≠ (b.fromId, b.toId, b.rtype))) :
    (mergeFromStep src tgt rels).Pairwise (fun a b =>
      (a.fromId, a.toId, a.rtype) ≠ (b.fromId, b.toId, b.rtype)) := by
  unfold mergeFromStep
  rw [List.pairwise_map]
  refine hp.imp_of_mem ?_
  intro a b ha hb hab
  rcases mergeFromRow_cases src tgt rels a with hfa | ⟨ha1, ha2, hfa⟩ <;>
    rcases mergeFromRow_cases src tgt rels b with hfb | ⟨hb1, hb2, hfb⟩ <;>
    rw [hfa, hfb]
  · exact hab
  · intro heq
    simp only [Prod.mk.injEq] at heq
    obtain ⟨he1, he2, he3⟩ := heq
    have : rels.any (fun r' =>
        r'.fromId == tgt && r'.toId == b.toId && r'.rtype == b.rtype) = true :=
      List.any_eq_true.mpr ⟨a, ha, by simp [he1, he2, he3]⟩
    rw [this] at hb2
    cases hb2
  · intro heq
    simp only [Prod.mk.injEq] at heq
    obtain ⟨he1, he2, he3⟩ := heq
    have : rels.any (fun r' =>
        r'.fromId == tgt && r'.toId == a.toId && r'.rtype == a.rtype) = true :=
      List.any_eq_true.mpr ⟨b, hb, by simp [he1.symm, he2.symm, he3.symm]⟩
    rw [this] at ha2
    cases ha2
  · intro heq
    simp only [Prod.mk.injEq] at heq
    obtain ⟨_, he2, he3⟩ := heq
    exact hab (by simp [ha1, hb1, he2, he3])

/-- Step 4 preserves triple uniqueness likewise. -/
theorem mergeToStep_pairwise (src tgt : Nat) (rels : List Rel)
    (hp : rels.Pairwise (fun a b =>
      (a.fromId, a.toId, a.rtype) ≠ (b.fromId, b.toId, b.rtype))) :
    (mergeToStep src tgt rels).Pairwise (fun a b =>
      (a.fromId, a.toId, a.rtype) ≠ (b.fromId, b.toId, b.rtype)) := by
  unfold mergeToStep
  rw [List.pairwise_map]
  refine hp.imp_of_mem ?_
  intro a b ha hb hab
  rcases mergeToRow_cases src tgt rels a with hfa | ⟨ha1, ha2, hfa⟩ <;>
    rcases mergeToRow_cases src tgt rels b with hfb | ⟨hb1, hb2, hfb⟩ <;>
    rw [hfa, hfb]
  · exact hab
  · intro heq
    simp only [Prod.mk.injEq] at heq
    obtain ⟨he1, he2, he3⟩ := heq
    have : rels.any (fun r' =>
        r'.fromId == b.fromId && r'.toId == tgt && r'.rtype == b.rtype) = true :=
      List.any_eq_true.mpr ⟨a, ha, by simp [he1, he2, he3]⟩
    rw [this] at hb2
    cases hb2
  · intro heq
    simp only [Prod.mk.injEq] at heq
    obtain ⟨he1, he2, he3⟩ := heq
    have : rels.any (fun r' =>
        r'.fromId == a.fromId && r'.toId == tgt && r'.rtype == a.rtype) = true :=
      List.any_eq_true.mpr ⟨b, hb, by simp [he1.symm, he2.symm, he3.symm]⟩
    rw [this] at ha2
    cases ha2
  · intro heq
    simp only [Prod.mk.injEq] at heq
    obtain ⟨he1, _, he3⟩ := heq
    exact hab (by simp [ha1, hb1, he1, he3])

theorem map_id_of_eq {α : Type _} (l : List α) (f : α → α) (h : ∀ a ∈ l, f a = a) :
    l.map f = l := by
  induction l with
  | nil => rfl
  | cons x xs ih =>
    simp only [List.map_cons]
    rw [h x (by simp), ih (fun a ha => h a (by simp [ha]))]

theorem mergeAliasesStep_self (x : Nat) (als : List AliasRow) :
    mergeAliasesStep x x als = als := by
  unfold mergeAliasesStep
  refine map_id_of_eq _ _ ?_
  intro a _
  unfold mergeAliasRow
  split_ifs with h
  · obtain ⟨ae, aal⟩ := a
    simp only [beq_iff_eq] at h
    simp [h]
  · rfl

theorem mergeLinksStep_self (x : Nat) (links : List (Nat × Nat)) :
    mergeLinksStep x x links = links := by
  unfold mergeLinksStep
  refine map_id_of_eq _ _ ?_
  intro l hl
  unfold mergeLinkRow
  split_ifs with h1 h2
  · rfl
  · exact absurd (List.any_eq_true.mpr ⟨l, hl, by simp [h1]⟩) h2
  · rfl

theorem mergeFromStep_self (x : Nat) (rels : List Rel) :
    mergeFromStep x x rels = rels := by
  unfold mergeFromStep
  refine map_id_of_eq _ _ ?_
  intro r hr
  unfold mergeFromRow
  split_ifs with h1 h2
  · rfl
  · exact absurd (List.any_eq_true.mpr ⟨r, hr, by simp [h1]⟩) h2
  · rfl

theorem mergeToStep_self (x : Nat) (rels : List Rel) :
    mergeToStep x x rels = rels := by
  unfold mergeToStep
  refine map_id_of_eq _ _ ?_
  intro r hr
  unfold mergeToRow
  split_ifs with h1 h2
  · rfl
  · exact absurd (List.any_eq_true.mpr ⟨r, hr, by simp [h1]⟩) h2
  · rfl

/-- Claim C10. Merging an existing entity into itself destroys it: the
relation-cleanup of step 5 deletes every relation touching the entity
(steps 1–4 are no-ops when `src = tgt`), and the final delete removes
the entity row, its aliases, and its memory links; the save path guards
against this by merging only when the two resolved ids differ
(`processAliasInfo` with equal ids is a no-op). -/
theorem merge_entities_self_destroys (st : Db) (ent : Entity)
    (h : st.entities.find? (fun e => e.id == ent.id) = some ent) :
    ∃ st', merge_entities st ent.id ent.id = some st' ∧
      st'.entities = st.entities.filter (fun e => !(e.id == ent.id)) ∧
      st'.relations = st.relations.filter
        (fun r => !(r.fromId == ent.id || r.toId == ent.id)) ∧
      st'.entity_aliases = st.entity_aliases.filter (fun a => !(a.entityId == ent.id)) ∧
      st'.memory_entities = st.memory_entities.filter (fun l => !(l.2 == ent.id)) ∧
      (∀ (st0 : Db) (pid : Nat) (nm : String),
        processAliasInfo st0 (some pid) (some pid) nm = some st0) := by
  refine ⟨{ st with
      entities := st.entities.filter (fun e => !(e.id == ent.id)),
      entity_aliases := (mergeAliasInsert ent.id ent.name
        (mergeAliasesStep ent.id ent.id st.entity_aliases)).filter
        (fun a => !(a.entityId == ent.id)),
      memory_entities := (mergeLinksStep ent.id ent.id st.memory_entities).filter
        (fun l => !(l.2 == ent.id)),
      relations := (mergeToStep ent.id ent.id
        (mergeFromStep ent.id ent.id st.relations)).filter
        (fun r => !(r.fromId == ent.id || r.toId == ent.id)) }, ?_, ?_, ?_, ?_, ?_, ?_⟩
  · unfold merge_entities
    rw [h]
  · rfl
  · show (mergeToStep _ _ (mergeFromStep _ _ st.relations)).filter _ = _
    rw [mergeFromStep_self, mergeToStep_self]
  · show (mergeAliasInsert _ _ (mergeAliasesStep _ _ st.entity_aliases)).filter _ = _
    rw [mergeAliasesStep_self]
    unfold mergeAliasInsert
    split_ifs with hany
    · rfl
    · rw [List.filter_append]
      simp
  · show (mergeLinksStep _ _ st.memory_entities).filter _ = _
    rw [mergeLinksStep_self]
  · intro st0 pid nm
    unfold processAliasInfo
    simp

/-- Claim C2. Merging distinct existing entities, in a state satisfying
the store's invariants (no other entity shares the source's name; any
alias equal to the source's name already belongs to the source or the
target): the source's former name resolves to the target; every
relation that touched the source has its endpoint-substituted triple
present afterwards (either the migrated row or the pre-existing
colliding row); the source row is gone; no alias, memory link, or
relation references the source; and triple uniqueness is preserved, so
a collision leaves exactly one surviving row. -/
theorem merge_entities_correct (st : Db) (srcEnt tgtEnt : Entity) (st' : Db)
    (h1 : st.entities.find? (fun e => e.id == srcEnt.id) = some srcEnt)
    (_h2 : tgtEnt ∈ st.entities)
    (h3 : srcEnt.id ≠ tgtEnt.id)
    (h4 : ∀ e ∈ st.entities, e.name = srcEnt.name → e.id = srcEnt.id)
    (h5 : ∀ a ∈ st.entity_aliases, a.aliasName = srcEnt.name →
      a.entityId = srcEnt.id ∨ a.entityId = tgtEnt.id)
    (hm : merge_entities st srcEnt.id tgtEnt.id = some st') :
    find_entity_id_by_name_or_alias st' srcEnt.name = some tgtEnt.id ∧
    (∀ r ∈ st.relations, r.fromId = srcEnt.id ∨ r.toId = srcEnt.id →
      ∃ q ∈ st'.relations,
        q.fromId = substEnd srcEnt.id tgtEnt.id r.fromId ∧
        q.toId = substEnd srcEnt.id tgtEnt.id r.toId ∧
        q.rtype = r.rtype) ∧
    (∀ e ∈ st'.entities, e.id ≠ srcEnt.id) ∧
    (∀ a ∈ st'.entity_aliases, a.entityId ≠ srcEnt.id) ∧
    (∀ l ∈ st'.memory_entities, l.2 ≠ srcEnt.id) ∧
    (∀ r ∈ st'.relations, r.fromId ≠ srcEnt.id ∧ r.toId ≠ srcEnt.id) ∧
    (st.relations.Pairwise (fun a b =>
        (a.fromId, a.toId, a.rtype) ≠ (b.fromId, b.toId, b.rtype)) →
      st'.relations.Pairwise (fun a b =>
        (a.fromId, a.toId, a.rtype) ≠ (b.fromId, b.toId, b.rtype))) := by
  have hne : tgtEnt.id ≠ srcEnt.id := fun hh => h3 hh.symm
  unfold merge_entities at hm
  rw [h1] at hm
  injection hm with hm'
  have hE : st'.entities = st.entities.filter (fun e => !(e.id == srcEnt.id)) := by
    rw [← hm']
  have hA : st'.entity_aliases = (mergeAliasInsert tgtEnt.id srcEnt.name
      (mergeAliasesStep srcEnt.id tgtEnt.id st.entity_aliases)).filter
      (fun a => !(a.entityId == srcEnt.id)) := by
    rw [← hm']
  have hL : st'.memory_entities = (mergeLinksStep srcEnt.id tgtEnt.id
      st.memory_entities).filter (fun l => !(l.2 == srcEnt.id)) := by
    rw [← hm']
  have hR : st'.relations = (mergeToStep srcEnt.id tgtEnt.id
      (mergeFromStep srcEnt.id tgtEnt.id st.relations)).filter
      (fun r => !(r.fromId == srcEnt.id || r.toId == srcEnt.id)) := by
    rw [← hm']
  have hstep : ∀ a ∈ mergeAliasesStep srcEnt.id tgtEnt.id st.entity_aliases,
      a.aliasName = srcEnt.name → a.entityId = tgtEnt.id := by
    intro a ha hname
    unfold mergeAliasesStep at ha
    obtain ⟨a0, ha0, rfl⟩ := List.mem_map.mp ha
    have hname0 : a0.aliasName = srcEnt.name := by
      unfold mergeAliasRow at hname
      split_ifs at hname
      · exact hname
      · exact hname
    unfold mergeAliasRow
    split_ifs with hcond
    · rfl
    · rcases h5 a0 ha0 hname0 with hsrc | htgt
      · exact absurd (by simpa using hsrc) hcond
      · exact htgt
  refine ⟨?_, ?_, ?_, ?_, ?_, ?_, ?_⟩
  · -- name-or-alias lookup resolves to the target
    have hallName : ∀ a ∈ st'.entity_aliases,
        a.aliasName = srcEnt.name → a.entityId = tgtEnt.id := by
      intro a ha hname
      rw [hA] at ha
      obtain ⟨hmem, _⟩ := List.mem_filter.mp ha
      unfold mergeAliasInsert at hmem
      split_ifs at hmem with hany
      · exact hstep a hmem hname
      · rcases List.mem_append.mp hmem with hmem' | hmem'
        · exact hstep a hmem' hname
        · simp only [List.mem_singleton] at hmem'
          subst hmem'
          rfl
    have hex : ∃ a ∈ st'.entity_aliases, (a.aliasName == srcEnt.name) = true := by
      rw [hA]
      unfold mergeAliasInsert
      split_ifs with hany
      · obtain ⟨a, ha, hp⟩ := List.any_eq_true.mp hany
        refine ⟨a, List.mem_filter.mpr ⟨ha, ?_⟩, hp⟩
        have := hstep a ha (by simpa using hp)
        simp [this, hne]
      · refine ⟨⟨tgtEnt.id, srcEnt.name⟩, List.mem_filter.mpr ⟨by simp, ?_⟩, by simp⟩
        simp [hne]
    have hnone : st'.entities.find? (fun e => e.name == srcEnt.name) = none := by
      rw [hE]
      apply List.find?_eq_none.mpr
      intro e he hpred
      obtain ⟨hemem, hefil⟩ := List.mem_filter.mp he
      have : e.id = srcEnt.id := h4 e hemem (by simpa using hpred)
      simp [this] at hefil
    unfold find_entity_id_by_name_or_alias
    rw [hnone]
    show (st'.entity_aliases.find? (fun a => a.aliasName == srcEnt.name)).map
      (·.entityId) = some tgtEnt.id
    obtain ⟨aw, hawmem, hawp⟩ := hex
    rcases hfind : st'.entity_aliases.find? (fun a => a.aliasName == srcEnt.name)
      with _ | afound
    · exact absurd hawp (List.find?_eq_none.mp hfind aw hawmem)
    · have hfm := List.mem_of_find?_eq_some hfind
      have hfp := List.find?_some hfind
      rw [hfind]
      show some afound.entityId = some tgtEnt.id
      rw [hallName afound hfm (by simpa using hfp)]
  · -- every relation touching the source survives with its substituted triple
    intro r hr hends
    by_cases hf : r.fromId = srcEnt.id
    · by_cases ht2 : r.toId = srcEnt.id
      · obtain ⟨q, hq, hq1, hq2, hq3⟩ :=
          mergeFromStep_covers srcEnt.id tgtEnt.id st.relations h3 r hr hf
        obtain ⟨p, hp, hp1, hp2, hp3⟩ :=
          mergeToStep_covers srcEnt.id tgtEnt.id _ h3 q hq (by rw [hq2, ht2])
        refine ⟨p, ?_, ?_, ?_, ?_⟩
        · rw [hR]
          exact List.mem_filter.mpr ⟨hp, by simp [hp1, hq1, hp2, hne]⟩
        · rw [hp1, hq1]
          unfold substEnd
          rw [if_pos hf]
        · rw [hp2]
          unfold substEnd
          rw [if_pos ht2]
        · rw [hp3, hq3]
      · obtain ⟨q, hq, hq1, hq2, hq3⟩ :=
          mergeFromStep_covers srcEnt.id tgtEnt.id st.relations h3 r hr hf
        have hq' : q ∈ mergeToStep srcEnt.id tgtEnt.id
            (mergeFromStep srcEnt.id tgtEnt.id st.relations) :=
          mergeToStep_keeps _ _ _ q hq (by rw [hq2]; exact ht2)
        refine ⟨q, ?_, ?_, ?_, ?_⟩
        · rw [hR]
          exact List.mem_filter.mpr ⟨hq', by simp [hq1, hq2, hne, ht2]⟩
        · rw [hq1]
          unfold substEnd
          rw [if_pos hf]
        · rw [hq2]
          unfold substEnd
          rw [if_neg ht2]
        · exact hq3
    · have ht2 : r.toId = srcEnt.id := by
        rcases hends with hh | hh
        · exact absurd hh hf
        · exact hh
      have hq : r ∈ mergeFromStep srcEnt.id tgtEnt.id st.relations :=
        mergeFromStep_keeps _ _ _ r hr hf
      obtain ⟨p, hp, hp1, hp2, hp3⟩ :=
        mergeToStep_covers srcEnt.id tgtEnt.id _ h3 r hq ht2
      refine ⟨p, ?_, ?_, ?_, ?_⟩
      · rw [hR]
        exact List.mem_filter.mpr ⟨hp, by simp [hp1, hp2, hf, hne]⟩
      · rw [hp1]
        unfold substEnd
        rw [if_neg hf]
      · rw [hp2]
        unfold substEnd
        rw [if_pos ht2]
      · exact hp3
  · intro e he
    rw [hE] at he
    have := (List.mem_filter.mp he).2
    simpa using this
  · intro a ha
    rw [hA] at ha
    have := (List.mem_filter.mp ha).2
    simpa using this
  · intro l hl
    rw [hL] at hl
    have := (List.mem_filter.mp hl).2
    simpa using this
  · intro r hr
    rw [hR] at hr
    have := (List.mem_filter.mp hr).2
    simp only [Bool.not_eq_true', Bool.or_eq_false_iff, beq_eq_false_iff_ne] at this
    exact this
  · intro hpw
    rw [hR]
    exact List.Pairwise.sublist (List.filter_sublist _)
      (mergeToStep_pairwise _ _ _ (mergeFromStep_pairwise _ _ _ hpw))

/-- Witness for `merge_entities_correct` on the ally-collision scenario:
merging entity 1 into entity 2 where both relate to entity 3 by
`ally`. -/
theorem merge_entities_correct_witness :
    find_entity_id_by_name_or_alias dbMergeAfter "src" = some 2 ∧
    (∀ r ∈ dbMergeScenario.relations, r.fromId = 1 ∨ r.toId = 1 →
      ∃ q ∈ dbMergeAfter.relations,
        q.fromId = substEnd 1 2 r.fromId ∧
        q.toId = substEnd 1 2 r.toId ∧
        q.rtype = r.rtype) ∧
    (∀ e ∈ dbMergeAfter.entities, e.id ≠ 1) ∧
    (∀ a ∈ dbMergeAfter.entity_aliases, a.entityId ≠ 1) ∧
    (∀ l ∈ dbMergeAfter.memory_entities, l.2 ≠ 1) ∧
    (∀ r ∈ dbMergeAfter.relations, r.fromId ≠ 1 ∧ r.toId ≠ 1) ∧
    (dbMergeScenario.relations.Pairwise (fun a b =>
        (a.fromId, a.toId, a.rtype) ≠ (b.fromId, b.toId, b.rtype)) →
      dbMergeAfter.relations.Pairwise (fun a b =>
        (a.fromId, a.toId, a.rtype) ≠ (b.fromId, b.toId, b.rtype))) :=
  merge_entities_correct dbMergeScenario ⟨1, "Person", "src", none⟩
    ⟨2, "Person", "tgt", none⟩ dbMergeAfter
    (by decide) (by decide) (by decide) (by decide) (by decide) (by decide)

/-- Witness for `merge_entities_self_destroys`: self-merging entity 1 of
the ally scenario. -/
theorem merge_entities_self_destroys_witness :
    ∃ st', merge_entities dbMergeScenario 1 1 = some st' ∧
      st'.entities = dbMergeScenario.entities.filter (fun e => !(e.id == 1)) ∧
      st'.relations = dbMergeScenario.relations.filter
        (fun r => !(r.fromId == 1 || r.toId == 1)) ∧
      st'.entity_aliases = dbMergeScenario.entity_aliases.filter
        (fun a => !(a.entityId == 1)) ∧
      st'.memory_entities = dbMergeScenario.memory_entities.filter
        (fun l => !(l.2 == 1)) ∧
      (∀ (st0 : Db) (pid : Nat) (nm : String),
        processAliasInfo st0 (some pid) (some pid) nm = some st0) :=
  merge_entities_self_destroys dbMergeScenario ⟨1, "Person", "src", none⟩ (by decide)

/-! ## `cleanup_database` facts supporting C3: the routine itself does
establish the orphan-free invariant and is idempotent (the C3 failure is
confined to `delete_memory`). -/

theorem cleanup_database_orphanFree (st : Db) :
    orphanFree (cleanup_database st) = true := by
  unfold orphanFree cleanup_database
  rw [Bool.and_eq_true]
  constructor
  · rw [List.all_eq_true]
    intro r hr
    unfold cleanupRelations at hr
    exact (List.mem_filter.mp hr).2
  · rw [List.all_eq_true]
    intro e he
    unfold cleanupEntities at he
    exact (List.mem_filter.mp he).2

theorem cleanupLinks_stable (st : Db) :
    cleanupLinks (cleanup_database st) = cleanupLinks st := by
  have h2 : (cleanupLinks st).filter
      (fun l => st.memories.any (fun m => m.id == l.1)) = cleanupLinks st := by
    rw [List.filter_eq_self]
    intro l hl
    unfold cleanupLinks at hl
    exact (List.mem_filter.mp (List.mem_of_mem_filter hl)).2
  have h1 : (cleanupLinks st).filter
      (fun l => entityExistsIn (cleanupEntities st) l.2) = cleanupLinks st := by
    rw [List.filter_eq_self]
    intro l hl
    have hl2 : entityExistsIn st.entities l.2 = true := by
      unfold cleanupLinks at hl
      exact (List.mem_filter.mp hl).2
    obtain ⟨he, hemem, heid⟩ := List.any_eq_true.mp hl2
    refine List.any_eq_true.mpr ⟨he, ?_, heid⟩
    unfold cleanupEntities
    refine List.mem_filter.mpr ⟨hemem, ?_⟩
    refine List.any_eq_true.mpr ⟨l, hl, ?_⟩
    simp only [beq_iff_eq] at heid ⊢
    exact heid.symm
  show ((cleanupLinks st).filter
      (fun l => st.memories.any (fun m => m.id == l.1))).filter
      (fun l => entityExistsIn (cleanupEntities st) l.2) = cleanupLinks st
  rw [h2, h1]

theorem cleanupEntities_stable (st : Db) :
    cleanupEntities (cleanup_database st) = cleanupEntities st := by
  show (cleanupEntities st).filter
      (fun e => (cleanupLinks (cleanup_database st)).any (fun l => l.2 == e.id))
      = cleanupEntities st
  rw [cleanupLinks_stable]
  rw [List.filter_eq_self]
  intro e he
  unfold cleanupEntities at he
  exact (List.mem_filter.mp he).2

theorem cleanupRelations_stable (st : Db) :
    cleanupRelations (cleanup_database st) = cleanupRelations st := by
  show ((cleanupRelations st).filter
      (fun r => !relDangling (cleanupEntities st) r)).filter
      (fun r => !relDangling (cleanupEntities (cleanup_database st)) r)
      = cleanupRelations st
  rw [cleanupEntities_stable]
  have hself : (cleanupRelations st).filter
      (fun r => !relDangling (cleanupEntities st) r) = cleanupRelations st := by
    rw [List.filter_eq_self]
    intro r hr
    unfold cleanupRelations at hr
    exact (List.mem_filter.mp hr).2
  rw [hself, hself]

/-- Running `cleanup_database` a second time immediately after a first
run changes nothing. -/
theorem cleanup_database_idempotent (st : Db) :
    cleanup_database (cleanup_database st) = cleanup_database st := by
  show ({ (cleanup_database st) with
      entities := cleanupEntities (cleanup_database st),
      relations := cleanupRelations (cleanup_database st),
      memory_entities := cleanupLinks (cleanup_database st) } : Db)
      = cleanup_database st
  rw [cleanupLinks_stable, cleanupEntities_stable, cleanupRelations_stable]
  rfl

end Kraph
